import Mathlib

/-!
Verification of the little-endian read/write extension layer and the
configuration forwarding shim of the `unstable` module.

Byte channels are shallowly embedded:
* a reader channel is the list of bytes still available (`List Nat`,
  each entry < 256 by construction of the writers);
* a writer channel (`Sink`) records the bytes accepted so far, an
  optional remaining capacity (`none` = unbounded) and the error value
  the channel reports when it cannot accept a whole write;
* `io::Result` becomes `Except IoErrorKind`.

Machine integers are `Nat`; `to_le_bytes` truncates to the width's byte
count exactly as the fixed-size Rust conversion does.
-/

namespace Zip2Unstable

/-- The error classes of the underlying I/O layer that this module can
surface: `read_exact` reports `unexpectedEof` on short input, `write_all`
reports the channel's own failure value verbatim. -/
inductive IoErrorKind where
  | unexpectedEof
  | writeZero
  | other (code : Nat)
deriving DecidableEq, Repr

/-- `to_le_bytes` for an `8*n`-bit unsigned integer: `n` bytes,
least-significant byte first (the fixed-width Rust conversion). -/
def toLeBytes : Nat → Nat → List Nat
  | 0, _ => []
  | n + 1, v => v % 256 :: toLeBytes n (v / 256)

/-- `from_le_bytes`: interpret a byte list as a little-endian unsigned
integer. -/
def fromLeBytes : List Nat → Nat
  | [] => 0
  | b :: bs => b + 256 * fromLeBytes bs

/-- A writable byte channel (`impl Write`): the bytes accepted so far,
an optional remaining capacity, and the error the channel reports when
it cannot accept all bytes of a write. -/
structure Sink where
  buffer : List Nat
  capacity : Option Nat
  errKind : IoErrorKind
deriving DecidableEq, Repr

/-- `Write::write_all`: accept every byte or fail with the channel's
error, with no partial-success result surfaced to the caller. -/
def Sink.write_all (s : Sink) (bs : List Nat) : Except IoErrorKind Sink :=
  match s.capacity with
  | none => .ok ⟨s.buffer ++ bs, none, s.errKind⟩
  | some c =>
      if bs.length ≤ c then .ok ⟨s.buffer ++ bs, some (c - bs.length), s.errKind⟩
      else .error s.errKind

/-- An unbounded, initially empty sink. -/
def emptySink : Sink := ⟨[], none, .writeZero⟩

/-- `LittleEndianWriteExt::write_u16_le`: `self.write_all(&input.to_le_bytes())`. -/
def write_u16_le (s : Sink) (input : Nat) : Except IoErrorKind Sink :=
  s.write_all (toLeBytes 2 input)

/-- `LittleEndianWriteExt::write_u32_le`: `self.write_all(&input.to_le_bytes())`. -/
def write_u32_le (s : Sink) (input : Nat) : Except IoErrorKind Sink :=
  s.write_all (toLeBytes 4 input)

/-- `LittleEndianWriteExt::write_u64_le`: `self.write_all(&input.to_le_bytes())`. -/
def write_u64_le (s : Sink) (input : Nat) : Except IoErrorKind Sink :=
  s.write_all (toLeBytes 8 input)

/-- `LittleEndianWriteExt::write_u128_le`: `self.write_all(&input.to_le_bytes())`. -/
def write_u128_le (s : Sink) (input : Nat) : Except IoErrorKind Sink :=
  s.write_all (toLeBytes 16 input)

/-- `Read::read_exact` on a byte-list channel: take exactly `n` bytes and
return the rest of the channel, or fail with `unexpectedEof` when fewer
than `n` bytes remain. -/
def read_exact (n : Nat) (src : List Nat) : Except IoErrorKind (List Nat × List Nat) :=
  if n ≤ src.length then .ok (src.take n, src.drop n) else .error .unexpectedEof

/-- `LittleEndianReadExt::read_u16_le`: `read_exact` into a 2-byte buffer,
then `u16::from_le_bytes`. Returns the value and the remaining channel. -/
def read_u16_le (src : List Nat) : Except IoErrorKind (Nat × List Nat) :=
  match read_exact 2 src with
  | .error e => .error e
  | .ok (out, rest) => .ok (fromLeBytes out, rest)

/-- `LittleEndianReadExt::read_u32_le`: `read_exact` into a 4-byte buffer,
then `u32::from_le_bytes`. -/
def read_u32_le (src : List Nat) : Except IoErrorKind (Nat × List Nat) :=
  match read_exact 4 src with
  | .error e => .error e
  | .ok (out, rest) => .ok (fromLeBytes out, rest)

/-- `LittleEndianReadExt::read_u64_le`: `read_exact` into an 8-byte buffer,
then `u64::from_le_bytes`. -/
def read_u64_le (src : List Nat) : Except IoErrorKind (Nat × List Nat) :=
  match read_exact 8 src with
  | .error e => .error e
  | .ok (out, rest) => .ok (fromLeBytes out, rest)

/-- The widths (in bits) for which `LittleEndianWriteExt` declares a write
method. -/
def littleEndianWriteWidths : List Nat := [16, 32, 64, 128]

/-- The widths (in bits) for which `LittleEndianReadExt` declares a read
method. -/
def littleEndianReadWidths : List Nat := [16, 32, 64]

/-- `AsyncLittleEndianWriteExt::write_u16_le`, the future driven to
completion: one `write_all` of the little-endian bytes. -/
def async_write_u16_le (s : Sink) (input : Nat) : Except IoErrorKind Sink :=
  s.write_all (toLeBytes 2 input)

/-- `AsyncLittleEndianWriteExt::write_u32_le`, driven to completion. -/
def async_write_u32_le (s : Sink) (input : Nat) : Except IoErrorKind Sink :=
  s.write_all (toLeBytes 4 input)

/-- `AsyncLittleEndianWriteExt::write_u64_le`, driven to completion. -/
def async_write_u64_le (s : Sink) (input : Nat) : Except IoErrorKind Sink :=
  s.write_all (toLeBytes 8 input)

/-- `AsyncLittleEndianWriteExt::write_u128_le`, driven to completion. -/
def async_write_u128_le (s : Sink) (input : Nat) : Except IoErrorKind Sink :=
  s.write_all (toLeBytes 16 input)

/-- `AsyncLittleEndianReadExt::read_u16_le`, driven to completion: one
`read_exact` of 2 bytes, then `u16::from_le_bytes`. -/
def async_read_u16_le (src : List Nat) : Except IoErrorKind (Nat × List Nat) :=
  match read_exact 2 src with
  | .error e => .error e
  | .ok (out, rest) => .ok (fromLeBytes out, rest)

/-- `AsyncLittleEndianReadExt::read_u32_le`, driven to completion. -/
def async_read_u32_le (src : List Nat) : Except IoErrorKind (Nat × List Nat) :=
  match read_exact 4 src with
  | .error e => .error e
  | .ok (out, rest) => .ok (fromLeBytes out, rest)

/-- `AsyncLittleEndianReadExt::read_u64_le`, driven to completion. -/
def async_read_u64_le (src : List Nat) : Except IoErrorKind (Nat × List Nat) :=
  match read_exact 8 src with
  | .error e => .error e
  | .ok (out, rest) => .ok (fromLeBytes out, rest)

/-- Modelled from the spec: the external archive-entry configuration
builder `FileOptions` (defined in `crate::write`, outside `src/`). Only
its legacy-encryption option is observable to this layer; the remaining
options are kept opaque in `rest`. -/
structure FileOptions where
  deprecatedEncryptionPassword : Option (List Nat)
  rest : Nat
deriving DecidableEq, Repr

/-- Modelled from the spec: the pre-existing underlying builder method
`FileOptions::with_deprecated_encryption(&[u8])` — consumes the
configuration by value and returns a new one with the legacy-encryption
option set to the given password bytes, all other options unchanged. -/
def FileOptions.with_deprecated_encryption (o : FileOptions) (password : List Nat) : FileOptions :=
  ⟨some password, o.rest⟩

/-- `FileOptionsExt::with_deprecated_encryption` (the shim under `src/`):
generic over any password type `S` with a byte-sequence view (`AsRef<[u8]>`,
embedded as the function `asRef`); forwards
`self.with_deprecated_encryption(password.as_ref())`. -/
def FileOptionsExt.with_deprecated_encryption {S : Type} (asRef : S → List Nat)
    (o : FileOptions) (password : S) : FileOptions :=
  o.with_deprecated_encryption (asRef password)

/-! ### Helper lemmas -/

theorem toLeBytes_length (n v : Nat) : (toLeBytes n v).length = n := by
  induction n generalizing v with
  | zero => rfl
  | succ n ih => simp [toLeBytes, ih]

theorem fromLeBytes_toLeBytes (n v : Nat) : fromLeBytes (toLeBytes n v) = v % 256 ^ n := by
  induction n generalizing v with
  | zero => simp [toLeBytes, fromLeBytes, Nat.mod_one]
  | succ n ih =>
      have h : v % (256 * 256 ^ n) = v % 256 + 256 * (v / 256 % 256 ^ n) := by
        conv_lhs => rw [← Nat.div_add_mod (v % (256 * 256 ^ n)) 256]
        rw [Nat.mod_mul_right_div_self, Nat.mod_mul_right_mod]
        omega
      simp [toLeBytes, fromLeBytes, ih, pow_succ]
      rw [mul_comm (256 ^ n) 256]
      omega

theorem read_exact_append (bs tail : List Nat) :
    read_exact bs.length (bs ++ tail) = .ok (bs, tail) := by
  simp [read_exact]

theorem toLeBytes_lt (n v : Nat) : ∀ b ∈ toLeBytes n v, b < 256 := by
  induction n generalizing v with
  | zero => simp [toLeBytes]
  | succ n ih =>
      intro b hb
      simp only [toLeBytes, List.mem_cons] at hb
      rcases hb with h | h
      · omega
      · exact ih _ b h

theorem read_exact_full (n : Nat) (bs : List Nat) (h : bs.length = n) :
    read_exact n bs = .ok (bs, []) := by
  subst h; simp [read_exact]

theorem read_exact_prefix (n : Nat) (bs tail : List Nat) (h : bs.length = n) :
    read_exact n (bs ++ tail) = .ok (bs, tail) := by
  subst h; exact read_exact_append bs tail

theorem fromLeBytes_toLeBytes_of_lt (n v : Nat) (h : v < 256 ^ n) :
    fromLeBytes (toLeBytes n v) = v := by
  rw [fromLeBytes_toLeBytes]; exact Nat.mod_eq_of_lt h

/-! ### Claim theorems -/

/-- C1: for each width W ∈ {16, 32, 64} and each unsigned integer v of
width W, writing v with the little-endian write of width W into an empty
channel and then reading with the little-endian read of the same width
from a channel holding exactly those bytes yields exactly v, with the
channel left empty. -/
theorem le_write_read_roundtrip :
    (∀ v : Nat, v < 2 ^ 16 →
      ∃ s, write_u16_le emptySink v = .ok s ∧ read_u16_le s.buffer = .ok (v, []))
  ∧ (∀ v : Nat, v < 2 ^ 32 →
      ∃ s, write_u32_le emptySink v = .ok s ∧ read_u32_le s.buffer = .ok (v, []))
  ∧ (∀ v : Nat, v < 2 ^ 64 →
      ∃ s, write_u64_le emptySink v = .ok s ∧ read_u64_le s.buffer = .ok (v, [])) := by
  refine ⟨fun v hv => ⟨⟨toLeBytes 2 v, none, .writeZero⟩, rfl, ?_⟩,
          fun v hv => ⟨⟨toLeBytes 4 v, none, .writeZero⟩, rfl, ?_⟩,
          fun v hv => ⟨⟨toLeBytes 8 v, none, .writeZero⟩, rfl, ?_⟩⟩
  · have hlt : v < 256 ^ 2 := by norm_num at hv ⊢; omega
    simp [read_u16_le, read_exact_full 2 _ (toLeBytes_length 2 v),
      fromLeBytes_toLeBytes_of_lt 2 v hlt]
  · have hlt : v < 256 ^ 4 := by norm_num at hv ⊢; omega
    simp [read_u32_le, read_exact_full 4 _ (toLeBytes_length 4 v),
      fromLeBytes_toLeBytes_of_lt 4 v hlt]
  · have hlt : v < 256 ^ 8 := by norm_num at hv ⊢; omega
    simp [read_u64_le, read_exact_full 8 _ (toLeBytes_length 8 v),
      fromLeBytes_toLeBytes_of_lt 8 v hlt]

/-- Witness for C1 at v = 0xABCD (16-bit), 0xDEADBEEF (32-bit) and
0x0123456789ABCDEF (64-bit). -/
theorem le_write_read_roundtrip_witness :
    ((0xABCD : Nat) < 2 ^ 16
      ∧ ∃ s, write_u16_le emptySink 0xABCD = .ok s ∧ read_u16_le s.buffer = .ok (0xABCD, []))
  ∧ ((0xDEADBEEF : Nat) < 2 ^ 32
      ∧ ∃ s, write_u32_le emptySink 0xDEADBEEF = .ok s
          ∧ read_u32_le s.buffer = .ok (0xDEADBEEF, []))
  ∧ ((0x0123456789ABCDEF : Nat) < 2 ^ 64
      ∧ ∃ s, write_u64_le emptySink 0x0123456789ABCDEF = .ok s
          ∧ read_u64_le s.buffer = .ok (0x0123456789ABCDEF, [])) :=
  ⟨⟨by norm_num, le_write_read_roundtrip.1 0xABCD (by norm_num)⟩,
   ⟨by norm_num, le_write_read_roundtrip.2.1 0xDEADBEEF (by norm_num)⟩,
   ⟨by norm_num, le_write_read_roundtrip.2.2 0x0123456789ABCDEF (by norm_num)⟩⟩

/-- C2: `write_u16_le` on 0x0102 emits exactly the bytes [0x02, 0x01],
and `write_u32_le` on 0x01020304 emits exactly [0x04, 0x03, 0x02, 0x01]
(least-significant byte first). -/
theorem byte_order_examples :
    write_u16_le emptySink 0x0102 = .ok ⟨[0x02, 0x01], none, .writeZero⟩
  ∧ write_u32_le emptySink 0x01020304 = .ok ⟨[0x04, 0x03, 0x02, 0x01], none, .writeZero⟩ :=
  ⟨rfl, rfl⟩

/-- C3: each read of width W fails with `unexpectedEof` (and returns no
value) on a channel holding fewer than W/8 bytes; `read_u32_le` on a
channel of exactly 4 bytes succeeds leaving the channel empty, and on a
channel of 3 bytes fails with `unexpectedEof`. -/
theorem read_short_input :
    (∀ src : List Nat, src.length < 2 → read_u16_le src = .error .unexpectedEof)
  ∧ (∀ src : List Nat, src.length < 4 → read_u32_le src = .error .unexpectedEof)
  ∧ (∀ src : List Nat, src.length < 8 → read_u64_le src = .error .unexpectedEof)
  ∧ (∀ src : List Nat, src.length = 4 → ∃ v, read_u32_le src = .ok (v, []))
  ∧ (∀ src : List Nat, src.length = 3 → read_u32_le src = .error .unexpectedEof) := by
  refine ⟨fun src h => ?_, fun src h => ?_, fun src h => ?_,
          fun src h => ⟨fromLeBytes src, ?_⟩, fun src h => ?_⟩
  · simp [read_u16_le, read_exact, Nat.not_le.mpr h]
  · simp [read_u32_le, read_exact, Nat.not_le.mpr h]
  · simp [read_u64_le, read_exact, Nat.not_le.mpr h]
  · simp [read_u32_le, read_exact_full 4 src h]
  · simp [read_u32_le, read_exact, h]

/-- Witness for C3 on concrete channels: the empty channel, a 1-byte
channel, a 3-byte channel, and the 4-byte channel [1, 2, 3, 4]. -/
theorem read_short_input_witness :
    read_u16_le [5] = .error .unexpectedEof
  ∧ read_u32_le [1, 2, 3] = .error .unexpectedEof
  ∧ read_u64_le [1, 2, 3, 4, 5, 6, 7] = .error .unexpectedEof
  ∧ (∃ v, read_u32_le [1, 2, 3, 4] = .ok (v, []))
  ∧ read_u32_le [9, 9, 9] = .error .unexpectedEof :=
  ⟨read_short_input.1 [5] (by decide),
   read_short_input.2.1 [1, 2, 3] (by decide),
   read_short_input.2.2.1 [1, 2, 3, 4, 5, 6, 7] (by decide),
   read_short_input.2.2.2.1 [1, 2, 3, 4] (by decide),
   read_short_input.2.2.2.2 [9, 9, 9] (by decide)⟩

/-- C4: every successful read of width W ∈ {16, 32, 64} consumes exactly
W/8 bytes from the front of the channel in order (the rest is exactly the
channel minus its first W/8 bytes, and the value is decoded from those
first bytes in order); every successful write of width W ∈ {16, 32, 64,
128} appends exactly W/8 bytes, in order, to the channel. -/
theorem exact_consumption :
    (∀ src v rest, read_u16_le src = .ok (v, rest) →
      2 ≤ src.length ∧ v = fromLeBytes (src.take 2) ∧ rest = src.drop 2)
  ∧ (∀ src v rest, read_u32_le src = .ok (v, rest) →
      4 ≤ src.length ∧ v = fromLeBytes (src.take 4) ∧ rest = src.drop 4)
  ∧ (∀ src v rest, read_u64_le src = .ok (v, rest) →
      8 ≤ src.length ∧ v = fromLeBytes (src.take 8) ∧ rest = src.drop 8)
  ∧ (∀ s v s', write_u16_le s v = .ok s' →
      s'.buffer = s.buffer ++ toLeBytes 2 v ∧ (toLeBytes 2 v).length = 2)
  ∧ (∀ s v s', write_u32_le s v = .ok s' →
      s'.buffer = s.buffer ++ toLeBytes 4 v ∧ (toLeBytes 4 v).length = 4)
  ∧ (∀ s v s', write_u64_le s v = .ok s' →
      s'.buffer = s.buffer ++ toLeBytes 8 v ∧ (toLeBytes 8 v).length = 8)
  ∧ (∀ s v s', write_u128_le s v = .ok s' →
      s'.buffer = s.buffer ++ toLeBytes 16 v ∧ (toLeBytes 16 v).length = 16) := by
  refine ⟨fun src v rest h => ?_, fun src v rest h => ?_, fun src v rest h => ?_,
          fun s v s' h => ?_, fun s v s' h => ?_, fun s v s' h => ?_, fun s v s' h => ?_⟩
  · by_cases hl : 2 ≤ src.length
    · simp [read_u16_le, read_exact, hl] at h
      exact ⟨hl, h.1.symm, h.2.symm⟩
    · simp [read_u16_le, read_exact, hl] at h
  · by_cases hl : 4 ≤ src.length
    · simp [read_u32_le, read_exact, hl] at h
      exact ⟨hl, h.1.symm, h.2.symm⟩
    · simp [read_u32_le, read_exact, hl] at h
  · by_cases hl : 8 ≤ src.length
    · simp [read_u64_le, read_exact, hl] at h
      exact ⟨hl, h.1.symm, h.2.symm⟩
    · simp [read_u64_le, read_exact, hl] at h
  · cases hc : s.capacity with
    | none =>
        simp [write_u16_le, Sink.write_all, hc] at h
        exact ⟨by rw [← h], toLeBytes_length 2 v⟩
    | some c =>
        simp only [write_u16_le, Sink.write_all, hc] at h
        split at h
        · exact ⟨by injection h with h'; rw [← h'], toLeBytes_length 2 v⟩
        · exact absurd h (by simp)
  · cases hc : s.capacity with
    | none =>
        simp [write_u32_le, Sink.write_all, hc] at h
        exact ⟨by rw [← h], toLeBytes_length 4 v⟩
    | some c =>
        simp only [write_u32_le, Sink.write_all, hc] at h
        split at h
        · exact ⟨by injection h with h'; rw [← h'], toLeBytes_length 4 v⟩
        · exact absurd h (by simp)
  · cases hc : s.capacity with
    | none =>
        simp [write_u64_le, Sink.write_all, hc] at h
        exact ⟨by rw [← h], toLeBytes_length 8 v⟩
    | some c =>
        simp only [write_u64_le, Sink.write_all, hc] at h
        split at h
        · exact ⟨by injection h with h'; rw [← h'], toLeBytes_length 8 v⟩
        · exact absurd h (by simp)
  · cases hc : s.capacity with
    | none =>
        simp [write_u128_le, Sink.write_all, hc] at h
        exact ⟨by rw [← h], toLeBytes_length 16 v⟩
    | some c =>
        simp only [write_u128_le, Sink.write_all, hc] at h
        split at h
        · exact ⟨by injection h with h'; rw [← h'], toLeBytes_length 16 v⟩
        · exact absurd h (by simp)

/-- Witness for C4: a concrete successful 16-bit read and a concrete
successful 32-bit write, checked against the exact-consumption law. -/
theorem exact_consumption_witness :
    (2 ≤ ([7, 1, 9] : List Nat).length ∧ 263 = fromLeBytes (([7, 1, 9] : List Nat).take 2)
      ∧ [9] = ([7, 1, 9] : List Nat).drop 2)
  ∧ ((⟨[5] ++ toLeBytes 4 77, some 6, .writeZero⟩ : Sink).buffer = [5] ++ toLeBytes 4 77
      ∧ (toLeBytes 4 77).length = 4) :=
  ⟨exact_consumption.1 [7, 1, 9] 263 [9] (by rfl),
   exact_consumption.2.2.2.2.1 ⟨[5], some 10, .writeZero⟩ 77
     ⟨[5] ++ toLeBytes 4 77, some 6, .writeZero⟩ (by rfl)⟩

/-- C5: for every supported width, the suspending (async) variant and the
blocking variant of the read operation agree on every channel content, and
the suspending and blocking write variants agree on every sink and value —
the two scheduling models are behaviorally equivalent. -/
theorem async_blocking_equiv :
    (∀ src, async_read_u16_le src = read_u16_le src)
  ∧ (∀ src, async_read_u32_le src = read_u32_le src)
  ∧ (∀ src, async_read_u64_le src = read_u64_le src)
  ∧ (∀ s v, async_write_u16_le s v = write_u16_le s v)
  ∧ (∀ s v, async_write_u32_le s v = write_u32_le s v)
  ∧ (∀ s v, async_write_u64_le s v = write_u64_le s v)
  ∧ (∀ s v, async_write_u128_le s v = write_u128_le s v) :=
  ⟨fun _ => rfl, fun _ => rfl, fun _ => rfl,
   fun _ _ => rfl, fun _ _ => rfl, fun _ _ => rfl, fun _ _ => rfl⟩

/-- C7: writing a u16, a u32 and a u64 in that order into one channel and
reading back in the same order reproduces the three values, each read
consuming exactly its requested byte count (2, then 4, then 8). -/
theorem width_independence (a b c : Nat)
    (ha : a < 2 ^ 16) (hb : b < 2 ^ 32) (hc : c < 2 ^ 64) :
    ∃ s1 s2 s3, write_u16_le emptySink a = .ok s1
      ∧ write_u32_le s1 b = .ok s2
      ∧ write_u64_le s2 c = .ok s3
      ∧ ∃ r1 r2, read_u16_le s3.buffer = .ok (a, r1) ∧ r1 = s3.buffer.drop 2
        ∧ read_u32_le r1 = .ok (b, r2) ∧ r2 = r1.drop 4
        ∧ read_u64_le r2 = .ok (c, []) := by
  have ha' : a < 256 ^ 2 := by norm_num at ha ⊢; omega
  have hb' : b < 256 ^ 4 := by norm_num at hb ⊢; omega
  have hc' : c < 256 ^ 8 := by norm_num at hc ⊢; omega
  refine ⟨⟨toLeBytes 2 a, none, .writeZero⟩,
          ⟨toLeBytes 2 a ++ toLeBytes 4 b, none, .writeZero⟩,
          ⟨(toLeBytes 2 a ++ toLeBytes 4 b) ++ toLeBytes 8 c, none, .writeZero⟩,
          rfl, rfl, rfl,
          toLeBytes 4 b ++ toLeBytes 8 c, toLeBytes 8 c, ?_, ?_, ?_, ?_, ?_⟩
  · rw [show ((toLeBytes 2 a ++ toLeBytes 4 b) ++ toLeBytes 8 c : List Nat)
        = toLeBytes 2 a ++ (toLeBytes 4 b ++ toLeBytes 8 c) from List.append_assoc ..]
    simp [read_u16_le, read_exact_prefix 2 _ _ (toLeBytes_length 2 a),
      fromLeBytes_toLeBytes_of_lt 2 a ha']
  · show _ = List.drop 2 _
    rw [List.append_assoc, List.drop_append_of_le_length (by simp [toLeBytes_length]),
      List.drop_of_length_le (by simp [toLeBytes_length]), List.nil_append]
  · simp [read_u32_le, read_exact_prefix 4 _ _ (toLeBytes_length 4 b),
      fromLeBytes_toLeBytes_of_lt 4 b hb']
  · rw [List.drop_append_of_le_length (by simp [toLeBytes_length]),
      List.drop_of_length_le (by simp [toLeBytes_length]), List.nil_append]
  · simp [read_u64_le, read_exact_full 8 _ (toLeBytes_length 8 c),
      fromLeBytes_toLeBytes_of_lt 8 c hc']

/-- Witness for C7 at (a, b, c) = (0x1234, 0xCAFEBABE, 0x1122334455667788). -/
theorem width_independence_witness :
    ((0x1234 : Nat) < 2 ^ 16 ∧ (0xCAFEBABE : Nat) < 2 ^ 32
      ∧ (0x1122334455667788 : Nat) < 2 ^ 64)
  ∧ ∃ s1 s2 s3, write_u16_le emptySink 0x1234 = .ok s1
      ∧ write_u32_le s1 0xCAFEBABE = .ok s2
      ∧ write_u64_le s2 0x1122334455667788 = .ok s3
      ∧ ∃ r1 r2, read_u16_le s3.buffer = .ok (0x1234, r1) ∧ r1 = s3.buffer.drop 2
        ∧ read_u32_le r1 = .ok (0xCAFEBABE, r2) ∧ r2 = r1.drop 4
        ∧ read_u64_le r2 = .ok (0x1122334455667788, []) :=
  ⟨⟨by norm_num, by norm_num, by norm_num⟩,
   width_independence 0x1234 0xCAFEBABE 0x1122334455667788
     (by norm_num) (by norm_num) (by norm_num)⟩

/-- C8: writing the maximum 128-bit value emits exactly 16 bytes, all
0xFF, in ascending-significance order; the reader extension declares read
methods only for widths 16, 32 and 64 — no 128-bit read exists at the
interface level. -/
theorem u128_write_only_boundary :
    write_u128_le emptySink (2 ^ 128 - 1) = .ok ⟨List.replicate 16 0xFF, none, .writeZero⟩
  ∧ (List.replicate 16 (0xFF : Nat)).length = 16
  ∧ littleEndianReadWidths = [16, 32, 64]
  ∧ 128 ∉ littleEndianReadWidths
  ∧ 128 ∈ littleEndianWriteWidths :=
  ⟨rfl, rfl, rfl, by decide, by decide⟩

/-- C9: for each width W ∈ {16, 32, 64, 128}, the write of width W fails
exactly when the channel cannot accept all W/8 bytes; on failure the
channel's own error value is returned verbatim with no partial-success
result, and whenever the channel can accept W/8 bytes the write succeeds
and appends exactly those bytes. -/
theorem write_failure_surfaced :
    (∀ (s : Sink) (v c : Nat), s.capacity = some c → c < 2 →
      write_u16_le s v = .error s.errKind)
  ∧ (∀ (s : Sink) (v c : Nat), s.capacity = some c → c < 4 →
      write_u32_le s v = .error s.errKind)
  ∧ (∀ (s : Sink) (v c : Nat), s.capacity = some c → c < 8 →
      write_u64_le s v = .error s.errKind)
  ∧ (∀ (s : Sink) (v c : Nat), s.capacity = some c → c < 16 →
      write_u128_le s v = .error s.errKind)
  ∧ (∀ (s : Sink) (v : Nat), (∀ c, s.capacity = some c → 2 ≤ c) →
      ∃ s', write_u16_le s v = .ok s' ∧ s'.buffer = s.buffer ++ toLeBytes 2 v)
  ∧ (∀ (s : Sink) (v : Nat), (∀ c, s.capacity = some c → 4 ≤ c) →
      ∃ s', write_u32_le s v = .ok s' ∧ s'.buffer = s.buffer ++ toLeBytes 4 v)
  ∧ (∀ (s : Sink) (v : Nat), (∀ c, s.capacity = some c → 8 ≤ c) →
      ∃ s', write_u64_le s v = .ok s' ∧ s'.buffer = s.buffer ++ toLeBytes 8 v)
  ∧ (∀ (s : Sink) (v : Nat), (∀ c, s.capacity = some c → 16 ≤ c) →
      ∃ s', write_u128_le s v = .ok s' ∧ s'.buffer = s.buffer ++ toLeBytes 16 v) := by
  refine ⟨fun s v c hc h => ?_, fun s v c hc h => ?_,
          fun s v c hc h => ?_, fun s v c hc h => ?_,
          fun s v h => ?_, fun s v h => ?_, fun s v h => ?_, fun s v h => ?_⟩
  · simp [write_u16_le, Sink.write_all, hc, toLeBytes_length, Nat.not_le.mpr h]
  · simp [write_u32_le, Sink.write_all, hc, toLeBytes_length, Nat.not_le.mpr h]
  · simp [write_u64_le, Sink.write_all, hc, toLeBytes_length, Nat.not_le.mpr h]
  · simp [write_u128_le, Sink.write_all, hc, toLeBytes_length, Nat.not_le.mpr h]
  · cases hc : s.capacity with
    | none =>
        exact ⟨⟨s.buffer ++ toLeBytes 2 v, none, s.errKind⟩,
          by simp [write_u16_le, Sink.write_all, hc], rfl⟩
    | some c =>
        exact ⟨⟨s.buffer ++ toLeBytes 2 v, some (c - 2), s.errKind⟩,
          by simp [write_u16_le, Sink.write_all, hc, toLeBytes_length, h c hc], rfl⟩
  · cases hc : s.capacity with
    | none =>
        exact ⟨⟨s.buffer ++ toLeBytes 4 v, none, s.errKind⟩,
          by simp [write_u32_le, Sink.write_all, hc], rfl⟩
    | some c =>
        exact ⟨⟨s.buffer ++ toLeBytes 4 v, some (c - 4), s.errKind⟩,
          by simp [write_u32_le, Sink.write_all, hc, toLeBytes_length, h c hc], rfl⟩
  · cases hc : s.capacity with
    | none =>
        exact ⟨⟨s.buffer ++ toLeBytes 8 v, none, s.errKind⟩,
          by simp [write_u64_le, Sink.write_all, hc], rfl⟩
    | some c =>
        exact ⟨⟨s.buffer ++ toLeBytes 8 v, some (c - 8), s.errKind⟩,
          by simp [write_u64_le, Sink.write_all, hc, toLeBytes_length, h c hc], rfl⟩
  · cases hc : s.capacity with
    | none =>
        exact ⟨⟨s.buffer ++ toLeBytes 16 v, none, s.errKind⟩,
          by simp [write_u128_le, Sink.write_all, hc], rfl⟩
    | some c =>
        exact ⟨⟨s.buffer ++ toLeBytes 16 v, some (c - 16), s.errKind⟩,
          by simp [write_u128_le, Sink.write_all, hc, toLeBytes_length, h c hc], rfl⟩

/-- Witness for C9: a sink of capacity 3 with error value `other 42`
rejects a 32-bit write, surfacing exactly that error; a sink of capacity 4
accepts it, appending exactly the four little-endian bytes. -/
theorem write_failure_surfaced_witness :
    write_u32_le ⟨[], some 3, .other 42⟩ 7
      = .error (⟨[], some 3, .other 42⟩ : Sink).errKind
  ∧ ∃ s', write_u32_le ⟨[], some 4, .other 42⟩ 7 = .ok s'
      ∧ s'.buffer = ([] : List Nat) ++ toLeBytes 4 7 :=
  ⟨write_failure_surfaced.2.1 ⟨[], some 3, .other 42⟩ 7 3 rfl (by decide),
   write_failure_surfaced.2.2.2.2.2.1 ⟨[], some 4, .other 42⟩ 7
     (fun c hc => by injection hc with h; omega)⟩

/-- C6: the shim `FileOptionsExt::with_deprecated_encryption` applied to a
configuration and any password with a byte-sequence view produces exactly
the configuration obtained by calling the underlying builder method
directly on the same byte slice; the legacy-encryption option is set to
exactly those password bytes, with no validation. -/
theorem shim_pass_through {S : Type} (asRef : S → List Nat) (o : FileOptions) (p : S) :
    FileOptionsExt.with_deprecated_encryption asRef o p
      = o.with_deprecated_encryption (asRef p)
  ∧ (FileOptionsExt.with_deprecated_encryption asRef o p).deprecatedEncryptionPassword
      = some (asRef p)
  ∧ (FileOptionsExt.with_deprecated_encryption asRef o p).rest = o.rest :=
  ⟨rfl, rfl, rfl⟩

/-- C10: the shim's result depends only on the password's byte-sequence
view: two passwords of possibly different types whose byte views agree
yield identical configurations. -/
theorem shim_byte_extensional {S1 S2 : Type}
    (asRef1 : S1 → List Nat) (asRef2 : S2 → List Nat)
    (o : FileOptions) (p1 : S1) (p2 : S2) (h : asRef1 p1 = asRef2 p2) :
    FileOptionsExt.with_deprecated_encryption asRef1 o p1
      = FileOptionsExt.with_deprecated_encryption asRef2 o p2 := by
  unfold FileOptionsExt.with_deprecated_encryption
  rw [h]

/-- Witness for C10: the password "secret" supplied once as a plain byte
list (viewed by the identity) and once as a unit value viewed by a
constant function returning the same bytes. -/
theorem shim_byte_extensional_witness :
    FileOptionsExt.with_deprecated_encryption (fun bs : List Nat => bs)
        ⟨none, 0⟩ [115, 101, 99, 114, 101, 116]
      = FileOptionsExt.with_deprecated_encryption
          (fun _ : Unit => [115, 101, 99, 114, 101, 116]) ⟨none, 0⟩ () :=
  shim_byte_extensional (fun bs : List Nat => bs)
    (fun _ : Unit => [115, 101, 99, 114, 101, 116])
    ⟨none, 0⟩ [115, 101, 99, 114, 101, 116] () rfl

end Zip2Unstable
